import Mathlib

/-!
Shallow embedding of the `CausalReasoning` engine
(repository file `src/reasoning/CausalReasoning.ts`, plus
`bayesianUpdate` from `src/foundation/utils.ts`).

Modelling conventions:
* JavaScript `Map` objects are insertion-ordered association lists
  (`Map.set` replaces in place, appends fresh keys at the end).
* JavaScript `Set` objects are insertion-ordered duplicate-free lists
  (`Set.add` is a no-op on a present element, appends otherwise;
  `Set.delete` removes the element).
* JavaScript numbers are modelled as exact rationals; all arithmetic the
  claims exercise (+, *, /, min, max, comparisons) is exact at the
  concrete inputs considered, so float rounding is outside the model.
* `generateId` (wall-clock timestamp + `Math.random` suffix) is modelled
  as a fresh-name counter threaded through the state: the engine only
  ever uses ids as opaque fresh keys.
* `Math.random()` (used by `checkTemporalPrecedence`) is modelled as an
  explicit oracle `ℕ → ℚ` giving the successive values of the stream.
* Fields never read by any engine operation (`Evidence.data/source/type/
  timestamp`, `Concept` payloads, graph creation timestamps) are omitted;
  the prediction `Concept` is represented by its id, exactly as the
  source builds it (`{ id: link.effect } as Concept`).
-/

/- The Batteries rational primitives are `@[irreducible]`, which blocks
the evaluation of concrete engine runs inside `decide`; restore the
default reducibility (the definitions are unchanged). -/
set_option allowUnsafeReducibility true in
attribute [semireducible] Rat.mul Rat.add Rat.sub Rat.inv

abbrev EntityId := String

/-- Ordered-association-list lookup, modelling `Map.get`. -/
def mapGet {α β : Type} [DecidableEq α] : List (α × β) → α → Option β
  | [], _ => none
  | (k', v') :: rest, k => if k' = k then some v' else mapGet rest k

/-- Ordered-association-list update, modelling `Map.set`:
replaces in place when the key is present, appends otherwise. -/
def mapSet {α β : Type} [DecidableEq α] : List (α × β) → α → β → List (α × β)
  | [], k, v => [(k, v)]
  | (k', v') :: rest, k, v =>
    if k' = k then (k, v) :: rest else (k', v') :: mapSet rest k v

/-- Apply `f` to the value at key `k` when present, else leave the map
unchanged: models the JavaScript idiom `m.get(k)?.mutate(...)`. -/
def mapModify {α β : Type} [DecidableEq α] : List (α × β) → α → (β → β) → List (α × β)
  | [], _, _ => []
  | (k', v') :: rest, k, f =>
    if k' = k then (k', f v') :: rest else (k', v') :: mapModify rest k f

/-- `Set.add`: no-op when present, appended at the end otherwise. -/
def setAdd {α : Type} [DecidableEq α] (s : List α) (x : α) : List α :=
  if x ∈ s then s else s ++ [x]

/-- Evidence record; only the fields the engine reads are modelled. -/
structure Evidence where
  id : EntityId
  reliability : ℚ
  supportsHypothesis : Option EntityId := none
  contradictsHypothesis : Option EntityId := none
  deriving DecidableEq, Repr

/-- Causal link (`CausalLink` in `foundation/types.ts`).
`conditions` holds concept references and is only stored, never read. -/
structure CausalLink where
  id : EntityId
  cause : EntityId
  effect : EntityId
  mechanism : Option String := none
  necessity : ℚ
  sufficiency : ℚ
  timeDelay : ℚ := 0
  conditions : List EntityId := []
  strength : ℚ
  evidence : List Evidence := []
  deriving DecidableEq, Repr

/-- Causal graph aggregation per domain.  Its `edges` map aliases the
link objects owned by the store, so it is modelled by the edge ids;
creation timestamps are wall-clock values outside the embedding. -/
structure CausalGraph where
  id : EntityId
  domain : String
  nodes : List EntityId := []
  edges : List EntityId := []
  confidence : ℚ := 1/2
  deriving DecidableEq, Repr

/-- Inference result (`CausalInferenceResult`); the `prediction` concept
is built by the source as `{ id: link.effect }`, hence just an id here. -/
structure CausalInferenceResult where
  predictionId : EntityId
  confidence : ℚ
  causalPath : List CausalLink
  explanation : String
  deriving DecidableEq, Repr

/-- State of a `CausalReasoning` instance: the link store, the two
indexes, the per-domain graphs, and the fresh-id counter modelling
`generateId`. -/
structure CausalReasoning where
  links : List (EntityId × CausalLink) := []
  linksByCause : List (EntityId × List EntityId) := []
  linksByEffect : List (EntityId × List EntityId) := []
  graphs : List (String × CausalGraph) := []
  nextId : Nat := 0
  deriving DecidableEq, Repr

def emptyCR : CausalReasoning := {}

/-- `generateId(tag)`: returns a fresh id and the advanced state. -/
def generateId (s : CausalReasoning) (tag : String) : EntityId × CausalReasoning :=
  (tag ++ ":" ++ toString s.nextId, { s with nextId := s.nextId + 1 })

/-- `storeLink`: insert the link and register it in both indexes
(creating the index bucket first when absent, as the source does). -/
def storeLink (s : CausalReasoning) (link : CausalLink) : CausalReasoning :=
  let byCause0 :=
    if (mapGet s.linksByCause link.cause).isSome then s.linksByCause
    else mapSet s.linksByCause link.cause []
  let byCause := mapModify byCause0 link.cause (fun b => setAdd b link.id)
  let byEffect0 :=
    if (mapGet s.linksByEffect link.effect).isSome then s.linksByEffect
    else mapSet s.linksByEffect link.effect []
  let byEffect := mapModify byEffect0 link.effect (fun b => setAdd b link.id)
  { s with
    links := mapSet s.links link.id link,
    linksByCause := byCause,
    linksByEffect := byEffect }

/-- `createLink`: builds the link record verbatim from the arguments
(the source performs no clamping) and stores it. -/
def createLink (s : CausalReasoning) (cause effect : EntityId)
    (strength : ℚ := 1/2) (necessity : ℚ := 1/2) (sufficiency : ℚ := 1/2)
    (mechanism : Option String := none) (timeDelay : ℚ := 0) :
    CausalLink × CausalReasoning :=
  let (id, s1) := generateId s "causal"
  let link : CausalLink :=
    { id := id, cause := cause, effect := effect, mechanism := mechanism,
      necessity := necessity, sufficiency := sufficiency,
      timeDelay := timeDelay, conditions := [], strength := strength,
      evidence := [] }
  (link, storeLink s1 link)

/-- `getLink` -/
def getLink (s : CausalReasoning) (id : EntityId) : Option CausalLink :=
  mapGet s.links id

/-- `getEffects`: resolve the cause-index bucket through the link store,
dropping dangling ids exactly as the source's `filter` does. -/
def getEffects (s : CausalReasoning) (cause : EntityId) : List CausalLink :=
  ((mapGet s.linksByCause cause).getD []).filterMap (fun id => mapGet s.links id)

/-- `getCauses`: the mirror lookup through the effect-index. -/
def getCauses (s : CausalReasoning) (effect : EntityId) : List CausalLink :=
  ((mapGet s.linksByEffect effect).getD []).filterMap (fun id => mapGet s.links id)

/-- `findLink` -/
def findLink (s : CausalReasoning) (cause effect : EntityId) : Option CausalLink :=
  (getEffects s cause).find? (fun link => link.effect = effect)

/-- `addEvidence`: append the record, then recompute strength from the
fraction of reliable evidence over `max(5, evidenceCount)`. -/
def addEvidence (s : CausalReasoning) (linkId : EntityId) (ev : Evidence) :
    CausalReasoning :=
  match mapGet s.links linkId with
  | none => s
  | some link =>
    let evidence := link.evidence ++ [ev]
    let reliableEvidence := evidence.filter (fun e => e.reliability > 7/10)
    let evidenceStrength :=
      (reliableEvidence.length : ℚ) / max 5 (evidence.length : ℚ)
    let link' :=
      { link with
        evidence := evidence,
        strength := min 1 (link.strength + evidenceStrength * (1/10)) }
    { s with links := mapSet s.links linkId link' }

/-- `generateExplanation`: deterministic text rendering of a path. -/
def generateExplanation (path : List CausalLink) : String :=
  match path with
  | [] => "No causal connection found"
  | [link] =>
    match link.mechanism with
    | some m => link.cause ++ " causes " ++ link.effect ++ " through " ++ m
    | none => link.cause ++ " causes " ++ link.effect
  | l0 :: l1 :: rest =>
    let steps := (l0 :: l1 :: rest).enum.map (fun p =>
      let connector := if p.1 = 0 then "" else "which "
      let mech :=
        match p.2.mechanism with
        | some m => " (via " ++ m ++ ")"
        | none => ""
      connector ++ "causes " ++ p.2.effect ++ mech)
    l0.cause ++ " " ++ String.intercalate ", " steps

/-- Accumulator of the traversal closures in `predictEffect` and
`explainEffect`: the captured `results` array and `visited` set. -/
structure PredState where
  results : List CausalInferenceResult := []
  visited : List EntityId := []
  deriving DecidableEq, Repr

/-- Stable descending insertion, modelling the (stable) JavaScript
`sort((a, b) => b.confidence - a.confidence)`. -/
def sortByConfidenceInsert (r : CausalInferenceResult) :
    List CausalInferenceResult → List CausalInferenceResult
  | [] => [r]
  | y :: ys =>
    if r.confidence ≥ y.confidence then r :: y :: ys
    else y :: sortByConfidenceInsert r ys

def sortByConfidence : List CausalInferenceResult → List CausalInferenceResult
  | [] => []
  | r :: rs => sortByConfidenceInsert r (sortByConfidence rs)

/-- The `explore` closure of `predictEffect`.  The source recursion is
bounded by the `depth >= maxSteps` guard; `fuel` makes that bound
structural (the top-level call passes `fuel = maxSteps`, so the
invariant `maxSteps - depth ≤ fuel` keeps the `fuel = 0` branch
unreachable whenever the source guard admits the call).  The
`for (const link of effects)` loop is the fold. -/
def exploreEffect (s : CausalReasoning) (maxSteps : ℕ) (fuel : ℕ)
    (currentId : EntityId) (path : List CausalLink) (confidence : ℚ)
    (depth : ℕ) (st : PredState) : PredState :=
  if depth ≥ maxSteps ∨ currentId ∈ st.visited then st
  else
    match fuel with
    | 0 => st
    | f + 1 =>
      (getEffects s currentId).foldl
        (fun st link =>
          let newPath := path ++ [link]
          let newConfidence := confidence * link.strength
          let st1 := { st with results := st.results ++
            [{ predictionId := link.effect, confidence := newConfidence,
               causalPath := newPath,
               explanation := generateExplanation newPath }] }
          exploreEffect s maxSteps f link.effect newPath newConfidence
            (depth + 1) st1)
        { st with visited := st.visited ++ [currentId] }

/-- `predictEffect`: forward depth-bounded expansion, results sorted by
descending confidence. -/
def predictEffect (s : CausalReasoning) (cause : EntityId)
    (maxSteps : ℕ := 3) : List CausalInferenceResult :=
  sortByConfidence (exploreEffect s maxSteps maxSteps cause [] 1 0 {}).results

/-- The `explore` closure of `explainEffect` (backward direction), with
the `for (const link of causes)` loop as the fold. -/
def exploreCause (s : CausalReasoning) (maxSteps : ℕ) (fuel : ℕ)
    (currentId : EntityId) (path : List CausalLink) (confidence : ℚ)
    (depth : ℕ) (st : PredState) : PredState :=
  if depth ≥ maxSteps ∨ currentId ∈ st.visited then st
  else
    match fuel with
    | 0 => st
    | f + 1 =>
      (getCauses s currentId).foldl
        (fun st link =>
          let newPath := link :: path
          let newConfidence := confidence * link.necessity
          let st1 := { st with results := st.results ++
            [{ predictionId := link.cause, confidence := newConfidence,
               causalPath := newPath,
               explanation := generateExplanation newPath }] }
          exploreCause s maxSteps f link.cause newPath newConfidence
            (depth + 1) st1)
        { st with visited := st.visited ++ [currentId] }

/-- `explainEffect`: backward depth-bounded expansion over incoming
links, confidence multiplied by `necessity`. -/
def explainEffect (s : CausalReasoning) (effect : EntityId)
    (maxSteps : ℕ := 3) : List CausalInferenceResult :=
  sortByConfidence (exploreCause s maxSteps maxSteps effect [] 1 0 {}).results

/-- Accumulator of the `findCausalPaths` closure. -/
structure PathState where
  paths : List (List CausalLink) := []
  visited : List EntityId := []
  deriving DecidableEq, Repr

/-- The `explore` closure of `findCausalPaths`.  Guard order follows the
source exactly: the length bound is checked *before* the target test,
then the visited set; the node is unmarked on return (backtracking).
Recursion depth is bounded by `maxLength - path.length`, made structural
through `fuel` (top-level call passes `fuel = maxLength`). -/
def explorePaths (s : CausalReasoning) (toId : EntityId) (maxLength : ℕ)
    (fuel : ℕ) (currentId : EntityId) (path : List CausalLink)
    (st : PathState) : PathState :=
  if path.length ≥ maxLength then st
  else if currentId = toId ∧ path.length > 0 then
    { st with paths := st.paths ++ [path] }
  else if currentId ∈ st.visited then st
  else
    match fuel with
    | 0 => st
    | f + 1 =>
      let st1 := { st with visited := st.visited ++ [currentId] }
      let st2 := (getEffects s currentId).foldl
        (fun st link => explorePaths s toId maxLength f link.effect
          (path ++ [link]) st)
        st1
      { st2 with visited := st2.visited.erase currentId }

/-- `findCausalPaths`: full path enumeration with DFS backtracking. -/
def findCausalPaths (s : CausalReasoning) (fromId toId : EntityId)
    (maxLength : ℕ := 5) : List (List CausalLink) :=
  (explorePaths s toId maxLength maxLength fromId [] {}).paths

/-- Removal phase of `predictIntervention`: for each intervened variable
in map order, record its current `getCauses` under the variable
(`removedLinks.set`), and delete each recorded link's id from the
effect-index bucket keyed by the link's own `effect` field
(`linksByEffect.get(link.effect)?.delete(link.id)`). -/
def removalPhase {α : Type} (acc : List (EntityId × List CausalLink))
    (s : CausalReasoning) :
    List (EntityId × α) → List (EntityId × List CausalLink) × CausalReasoning
  | [] => (acc, s)
  | (varId, _) :: rest =>
    let causes := getCauses s varId
    let s' := { s with linksByEffect :=
      (causes.foldl (fun m link => mapModify m link.effect (fun b => b.erase link.id))
        s.linksByEffect) }
    removalPhase (mapSet acc varId causes) s' rest

/-- Prediction phase of `predictIntervention`: scan the intervened
variables in map order, run `predictEffect` at its default depth and
return the first prediction targeting `targetEffect`. -/
def firstPrediction {α : Type} (s : CausalReasoning) (targetEffect : EntityId) :
    List (EntityId × α) → Option CausalInferenceResult
  | [] => none
  | (varId, _) :: rest =>
    match (predictEffect s varId).find? (fun p => p.predictionId = targetEffect) with
    | some r => some r
    | none => firstPrediction s targetEffect rest

/-- Restore phase of `predictIntervention`: add every removed link id
back to the effect-index bucket of its `effect` field, in map order. -/
def restorePhase (s : CausalReasoning) :
    List (EntityId × List CausalLink) → CausalReasoning
  | [] => s
  | (_, links) :: rest =>
    restorePhase
      { s with linksByEffect :=
        (links.foldl (fun m link => mapModify m link.effect (fun b => setAdd b link.id))
          s.linksByEffect) } rest

/-- `predictIntervention`: sever the intervened nodes' incoming edges in
the effect-index, search, then restore.  The forced values in the
intervention map are never read (`for (const [varId] of intervention)`),
so the embedding is polymorphic in the value type.  Returns the result
together with the final state (the source mutates `this`). -/
def predictIntervention {α : Type} (s : CausalReasoning)
    (intervention : List (EntityId × α)) (targetEffect : EntityId) :
    Option CausalInferenceResult × CausalReasoning :=
  let (removedLinks, s1) := removalPhase [] s intervention
  let result := firstPrediction s1 targetEffect intervention
  (result, restorePhase s1 removedLinks)

/-- `counterfactual`: two interventions compared by confidence delta. -/
def counterfactual {α β : Type} (s : CausalReasoning)
    (actual : List (EntityId × α)) (cf : List (EntityId × β))
    (targetEffect : EntityId) :
    (Option CausalInferenceResult × Option CausalInferenceResult × ℚ) ×
      CausalReasoning :=
  let (actualOutcome, s1) := predictIntervention s actual targetEffect
  let (cfOutcome, s2) := predictIntervention s1 cf targetEffect
  let difference :=
    match actualOutcome, cfOutcome with
    | some a, some c => |a.confidence - c.confidence|
    | _, _ => 0
  ((actualOutcome, cfOutcome, difference), s2)

/-- `bayesianUpdate` from `foundation/utils.ts`. -/
def bayesianUpdate (priorBelief likelihoodIfTrue likelihoodIfFalse : ℚ) : ℚ :=
  let numerator := likelihoodIfTrue * priorBelief
  let denominator := numerator + likelihoodIfFalse * (1 - priorBelief)
  if denominator > 0 then numerator / denominator else priorBelief

/-- `updateModel`: append evidence, then Bayes-update the strength.  The
source keeps one mutable link object across the `addEvidence` call, so
`prior` reads the *post-append* strength; the embedding re-fetches the
link after `addEvidence` to model that aliasing.  (The inner `none`
branch is unreachable: `addEvidence` never deletes a link.) -/
def updateModel (s : CausalReasoning) (linkId : EntityId) (ev : Evidence) :
    CausalReasoning :=
  match mapGet s.links linkId with
  | none => s
  | some _ =>
    let s1 := addEvidence s linkId ev
    match mapGet s1.links linkId with
    | none => s1
    | some link =>
      let prior := link.strength
      let likelihood := ev.reliability
      if ev.supportsHypothesis = some linkId then
        { s1 with links := (mapSet s1.links linkId
          { link with strength := bayesianUpdate prior likelihood (1 - likelihood) }) }
      else if ev.contradictsHypothesis = some linkId then
        { s1 with links := (mapSet s1.links linkId
          { link with strength := bayesianUpdate prior (1 - likelihood) likelihood }) }
      else s1

/-- `createGraph` (graph timestamps are wall-clock, outside the model). -/
def createGraph (s : CausalReasoning) (domain : String) :
    CausalGraph × CausalReasoning :=
  let (id, s1) := generateId s "graph"
  let graph : CausalGraph :=
    { id := id, domain := domain, nodes := [], edges := [], confidence := 1/2 }
  (graph, { s1 with graphs := mapSet s1.graphs domain graph })

/-- `getGraph` -/
def getGraph (s : CausalReasoning) (domain : String) :
    CausalGraph × CausalReasoning :=
  match mapGet s.graphs domain with
  | some g => (g, s)
  | none => createGraph s domain

/-- `addEdge`: register a link in a domain graph (the graph's `edges`
map aliases the stored link objects, so only the id set is modelled)
and re-store the link. -/
def addEdge (s : CausalReasoning) (domain : String) (link : CausalLink) :
    CausalReasoning :=
  let (graph, s1) := getGraph s domain
  let graph' := { graph with edges := setAdd graph.edges link.id }
  storeLink { s1 with graphs := mapSet s1.graphs domain graph' } link

/-- Observation record for `discoverCausality`: `variables` is the list
of the observation map's (distinct) keys; the mapped values are never
read by the engine.  (The source field name `variables` is a reserved
word in Lean, hence `vars`.) -/
structure Observation where
  vars : List EntityId
  outcome : EntityId
  deriving DecidableEq, Repr

/-- Floor square root on naturals, by bounded search (extensionally
`Nat.sqrt`, written without well-founded recursion so that concrete
engine runs reduce inside the kernel). -/
def natSqrtFloor (n : ℕ) : ℕ :=
  (((List.range (n + 1)).filter (fun k => k * k ≤ n)).getLastD 0)

/-- `Math.sqrt` as used by `computeCorrelations`: exact on rationals
that are squares of rationals, which covers every correlation input in
this development; elsewhere it returns the floor-square-root
approximation, standing in for the reference's float approximation,
which is outside the exact-arithmetic model. -/
def ratSqrt (q : ℚ) : ℚ :=
  (natSqrtFloor q.num.toNat : ℚ) / (natSqrtFloor q.den : ℚ)

/-- `m.set(k, (m.get(k) || 0) + 1)` -/
def bumpCount {α : Type} [DecidableEq α] (m : List (α × ℚ)) (k : α) :
    List (α × ℚ) :=
  mapSet m k (((mapGet m k).getD 0) + 1)

/-- `computeCorrelations`: co-occurrence counts keyed by the ordered
variable pair, normalised by the square root of the product of the
individual counts.  The source keys its maps by the string
`var1 + "|" + var2` and decodes it back with `split('|')`; for names
not containing the separator that encoding is exactly the pair, which
is how the key is modelled (separator-containing names are outside the
model). -/
def computeCorrelations (observations : List Observation) :
    List ((EntityId × EntityId) × ℚ) :=
  let counts := observations.foldl
    (fun acc obs =>
      obs.vars.foldl
        (fun acc var1 =>
          let varCounts := bumpCount acc.2 var1
          let coOcc := obs.vars.foldl
            (fun co var2 =>
              if var1 ≠ var2 then bumpCount co (var1, var2) else co)
            acc.1
          (coOcc, varCounts))
        acc)
    (([], []) : List ((EntityId × EntityId) × ℚ) × List (EntityId × ℚ))
  counts.1.foldl
    (fun correlations kv =>
      let var1 := kv.1.1
      let var2 := kv.1.2
      let count1 := (mapGet counts.2 var1).getD 1
      let count2 := (mapGet counts.2 var2).getD 1
      mapSet correlations kv.1 (kv.2 / ratSqrt (count1 * count2)))
    []

/-- `checkTemporalPrecedence`: the reference is the placeholder
`Math.random() > 0.5`, ignoring all three arguments; `rnd` is the
sampled `Math.random()` value. -/
def checkTemporalPrecedence (_v1 _v2 : EntityId)
    (_observations : List Observation) (rnd : ℚ) : Bool :=
  rnd > 1/2

/-- `discoverCausality`: hypothesise a link for every correlation above
0.7 whose direction check succeeds.  `randoms` is the `Math.random()`
stream consumed by `checkTemporalPrecedence`, one value per check. -/
def discoverCausality (s : CausalReasoning)
    (observations : List Observation) (domain : String) (randoms : ℕ → ℚ) :
    List CausalLink × CausalReasoning :=
  let correlations := computeCorrelations observations
  let final := correlations.foldl
    (fun (acc : List CausalLink × CausalReasoning × ℕ) kv =>
      let (discovered, s, k) := acc
      if kv.2 > (7/10 : ℚ) then
        let var1 := kv.1.1
        let var2 := kv.1.2
        let var1CausesVar2 :=
          checkTemporalPrecedence var1 var2 observations (randoms k)
        if var1CausesVar2 then
          let (link, s1) := createLink s var1 var2 kv.2 (kv.2 * (8/10)) (kv.2 * (6/10))
          (discovered ++ [link], addEdge s1 domain link, k + 1)
        else (discovered, s, k + 1)
      else (discovered, s, k))
    ([], s, 0)
  (final.1, final.2.1)

/-- Reference for the refinement claim, following the claim's words:
scan the intervention keys in iteration order and return the first
`targetEffect` match of plain `predictEffect` on the *unmodified*
store. -/
def predictInterventionUnmodified {α : Type} (s : CausalReasoning)
    (intervention : List (EntityId × α)) (targetEffect : EntityId) :
    Option CausalInferenceResult :=
  intervention.findSome? (fun p =>
    (predictEffect s p.1).find? (fun r => r.predictionId = targetEffect))

/-- The spec's test store (section 8): the 3-edge chain A→B→C→D with
strengths 0.9, 0.8, 0.7 and necessities 0.6, 0.5, 0.4. -/
def chainS : CausalReasoning :=
  let s1 := (createLink emptyCR "A" "B" (9/10) (3/5)).2
  let s2 := (createLink s1 "B" "C" (4/5) (1/2)).2
  (createLink s2 "C" "D" (7/10) (2/5)).2

/-- The three links of `chainS`, for use in concrete statements. -/
def linkAB : CausalLink :=
  { id := "causal:0", cause := "A", effect := "B", necessity := 3/5,
    sufficiency := 1/2, strength := 9/10 }

def linkBC : CausalLink :=
  { id := "causal:1", cause := "B", effect := "C", necessity := 1/2,
    sufficiency := 1/2, strength := 4/5 }

def linkCD : CausalLink :=
  { id := "causal:2", cause := "C", effect := "D", necessity := 2/5,
    sufficiency := 1/2, strength := 7/10 }

/-- Observation batch for the discovery claim: two identical
observations over the variable set {A, B} (every co-occurrence
correlation equals 1, which exceeds the 0.7 threshold). -/
def obsAB : List Observation :=
  [{ vars := ["A", "B"], outcome := "o" }, { vars := ["A", "B"], outcome := "o" }]

/-- A store holding one link with out-of-range strength 1.5, built
through the public `createLink` entry point. -/
def wideS : CausalReasoning := (createLink emptyCR "A" "B" (3/2)).2

/-- The tuple of a discovered link the discovery claim compares
(creation ids aside). -/
def linkTuple (l : CausalLink) : EntityId × EntityId × ℚ × ℚ × ℚ :=
  (l.cause, l.effect, l.strength, l.necessity, l.sufficiency)

/-- Evidence records for the Bayesian-update scenarios: supporting,
contradicting, and unrelated to the chain's first link. -/
def evSup : Evidence :=
  { id := "e", reliability := 4/5, supportsHypothesis := some "causal:0" }

def evCon : Evidence :=
  { id := "e", reliability := 4/5, contradictsHypothesis := some "causal:0" }

def evNeu : Evidence := { id := "e", reliability := 4/5 }

/-- The chain's first link after appending one of the records above
(`addEvidence` raises the strength from 9/10 to 23/25). -/
def linkABevS : CausalLink := { linkAB with evidence := [evSup], strength := 23/25 }

def linkABevC : CausalLink := { linkAB with evidence := [evCon], strength := 23/25 }

def linkABevN : CausalLink := { linkAB with evidence := [evNeu], strength := 23/25 }

/-- The deepest forward result of `predictEffect` on the chain (target
D, confidence 0.9*0.8*0.7). -/
def resD : CausalInferenceResult :=
  { predictionId := "D", confidence := 63/125,
    causalPath := [linkAB, linkBC, linkCD],
    explanation := "A causes B, which causes C, which causes D" }

/-- The deepest backward result of `explainEffect` on the chain (origin
A, confidence 0.6*0.5*0.4). -/
def resA : CausalInferenceResult :=
  { predictionId := "A", confidence := 3/25,
    causalPath := [linkAB, linkBC, linkCD],
    explanation := "A causes B, which causes C, which causes D" }

/-- The effect-index bucket of a node: `linksByEffect.get(e)` as a
list, empty when the key is absent. -/
def bucketOf (s : CausalReasoning) (e : EntityId) : List EntityId :=
  (mapGet s.linksByEffect e).getD []

/-- All links recorded in a `removedLinks` accumulator, in order. -/
def accLinks : List (EntityId × List CausalLink) → List CausalLink
  | [] => []
  | (_, c) :: rest => c ++ accLinks rest

/-- A `removedLinks` accumulator is good when every recorded link's
`effect` equals the intervened variable it was recorded under (which
`getCauses` guarantees on well-formed stores). -/
def AccGood (acc : List (EntityId × List CausalLink)) : Prop :=
  ∀ p ∈ acc, ∀ l ∈ p.2, l.effect = p.1

/-- Structural well-formedness of a store, maintained by every engine
operation (and partly guaranteed by the JavaScript `Map`/`Set` types):
every stored link knows its own key, and every effect-index bucket is
duplicate-free and holds only ids whose link's `effect` is the bucket
key. -/
def WellFormed (s : CausalReasoning) : Prop :=
  (∀ p ∈ s.links, p.2.id = p.1) ∧
  (∀ q ∈ s.linksByEffect, q.2.Nodup ∧
    ∀ id ∈ q.2, ∀ l ∈ (mapGet s.links id).toList, l.effect = q.1)

/-! ### Association-list lemmas -/

theorem mapGet_mapSet_self {α β : Type} [DecidableEq α]
    (m : List (α × β)) (k : α) (v : β) :
    mapGet (mapSet m k v) k = some v := by
  induction m with
  | nil => simp [mapSet, mapGet]
  | cons p rest ih =>
    obtain ⟨k', v'⟩ := p
    by_cases h : k' = k <;> simp [mapSet, mapGet, h, ih]

theorem mapGet_mapSet_ne {α β : Type} [DecidableEq α]
    (m : List (α × β)) (k k' : α) (v : β) (h : k' ≠ k) :
    mapGet (mapSet m k v) k' = mapGet m k' := by
  induction m with
  | nil => simp [mapSet, mapGet, Ne.symm h]
  | cons p rest ih =>
    obtain ⟨k0, v0⟩ := p
    by_cases h0 : k0 = k
    · subst h0
      simp [mapSet, mapGet, Ne.symm h]
    · simp only [mapSet, if_neg h0]
      by_cases h1 : k0 = k' <;> simp [mapGet, h1, ih]

theorem mapGet_mem {α β : Type} [DecidableEq α]
    {m : List (α × β)} {k : α} {v : β} (h : mapGet m k = some v) :
    (k, v) ∈ m := by
  induction m with
  | nil => simp [mapGet] at h
  | cons p rest ih =>
    obtain ⟨k0, v0⟩ := p
    by_cases h0 : k0 = k
    · subst h0
      simp [mapGet] at h
      simp [h]
    · simp only [mapGet, if_neg h0] at h
      exact List.mem_cons_of_mem _ (ih h)

theorem mapModify_get_self {α β : Type} [DecidableEq α]
    (m : List (α × β)) (k : α) (f : β → β) :
    mapGet (mapModify m k f) k = (mapGet m k).map f := by
  induction m with
  | nil => simp [mapModify, mapGet]
  | cons p rest ih =>
    obtain ⟨k0, v0⟩ := p
    by_cases h0 : k0 = k <;> simp [mapModify, mapGet, h0, ih]

theorem mapModify_get_ne {α β : Type} [DecidableEq α]
    (m : List (α × β)) (k k' : α) (f : β → β) (h : k' ≠ k) :
    mapGet (mapModify m k f) k' = mapGet m k' := by
  induction m with
  | nil => simp [mapModify]
  | cons p rest ih =>
    obtain ⟨k0, v0⟩ := p
    by_cases h0 : k0 = k
    · subst h0
      simp [mapModify, mapGet, Ne.symm h]
    · simp only [mapModify, if_neg h0]
      by_cases h1 : k0 = k' <;> simp [mapGet, h1, ih]

theorem mem_mapModify {α β : Type} [DecidableEq α]
    {m : List (α × β)} {k : α} {f : β → β} {q : α × β}
    (h : q ∈ mapModify m k f) :
    q ∈ m ∨ ∃ b, (q.1, b) ∈ m ∧ q.1 = k ∧ q.2 = f b := by
  induction m with
  | nil => simp [mapModify] at h
  | cons p rest ih =>
    obtain ⟨k0, v0⟩ := p
    by_cases h0 : k0 = k
    · subst h0
      simp only [mapModify, if_pos rfl] at h
      rcases List.mem_cons.mp h with h | h
      · subst h
        exact Or.inr ⟨v0, List.mem_cons_self _ _, rfl, rfl⟩
      · exact Or.inl (List.mem_cons_of_mem _ h)
    · simp only [mapModify, if_neg h0] at h
      rcases List.mem_cons.mp h with h | h
      · subst h
        exact Or.inl (List.mem_cons_self _ _)
      · rcases ih h with h | ⟨b, hb, hk, hf⟩
        · exact Or.inl (List.mem_cons_of_mem _ h)
        · exact Or.inr ⟨b, List.mem_cons_of_mem _ hb, hk, hf⟩

/-! ### Claim C2 -/

/-- C2 counterexample: `createLink` does not clamp.  Creating a link
with strength 1.5 stores strength 1.5 (not 1.0), and creating one with
strength -0.2 stores -0.2 (not 0.0). -/
theorem createLink_no_clamping :
    (mapGet ((createLink emptyCR "A" "B" (3/2)).2).links "causal:0").map
      CausalLink.strength = some (3/2) ∧ ((3 : ℚ)/2 ≠ 1) ∧
    (mapGet ((createLink emptyCR "A" "B" (-(1/5))).2).links "causal:0").map
      CausalLink.strength = some (-(1/5)) ∧ (-((1 : ℚ)/5) ≠ 0) := by
  refine ⟨by decide, by norm_num, by decide, by norm_num⟩

/-- C2 amended: `createLink` stores strength, necessity and sufficiency
exactly as passed; out-of-range inputs are neither clamped nor
rejected. -/
theorem createLink_stores_verbatim (s : CausalReasoning)
    (c e : EntityId) (st ne su : ℚ) (m : Option String) (td : ℚ) :
    ((createLink s c e st ne su m td).1).strength = st ∧
    ((createLink s c e st ne su m td).1).necessity = ne ∧
    ((createLink s c e st ne su m td).1).sufficiency = su ∧
    mapGet ((createLink s c e st ne su m td).2).links
        ((createLink s c e st ne su m td).1).id =
      some (createLink s c e st ne su m td).1 := by
  refine ⟨rfl, rfl, rfl, ?_⟩
  simp [createLink, generateId, storeLink, mapGet_mapSet_self]

/-! ### Claim C3 -/

/-- C3 counterexample: on the 3-edge chain A→B→C→D,
`findCausalPaths(A, D, 3)` returns zero paths, not exactly one: the
source checks `path.length >= maxLength` *before* the target test, so a
path of exactly `maxLength` edges is never recorded. -/
theorem findCausalPaths_exact_length_cex :
    findCausalPaths chainS "A" "D" 3 = [] ∧
    (findCausalPaths chainS "A" "D" 3).length ≠ 1 := by
  refine ⟨by decide, by decide⟩

/-- C3 amended: `findCausalPaths` enumerates the simple paths of
*strictly fewer* than `maxLength` edges: on the 3-edge chain A→B→C→D
both `findCausalPaths(A, D, 2)` and `findCausalPaths(A, D, 3)` return
zero paths, and `findCausalPaths(A, D, 4)` returns exactly the one
chain path. -/
theorem findCausalPaths_chain_enumeration :
    (findCausalPaths chainS "A" "D" 2).length = 0 ∧
    (findCausalPaths chainS "A" "D" 3).length = 0 ∧
    (findCausalPaths chainS "A" "D" 4).length = 1 ∧
    findCausalPaths chainS "A" "D" 4 = [[linkAB, linkBC, linkCD]] := by
  refine ⟨by decide, by decide, by decide, by decide⟩

/-! ### Claim C6 -/

/-- C6: `discoverCausality` is not deterministic — its output depends
on the `Math.random()` stream consumed by `checkTemporalPrecedence`.
On two identical observation batches (`obsAB` twice), a run whose
random draws exceed 0.5 emits the links A→B and B→A while a run whose
draws fall below 0.5 emits none, so identical inputs need not produce
identical link sets. -/
theorem discoverCausality_randomness_dependent :
    ((discoverCausality emptyCR obsAB "dom" (fun _ => 9/10)).1.map linkTuple =
      [("A", "B", 1, 4/5, 3/5), ("B", "A", 1, 4/5, 3/5)]) ∧
    ((discoverCausality emptyCR obsAB "dom" (fun _ => 1/10)).1.map linkTuple = []) ∧
    ((discoverCausality emptyCR obsAB "dom" (fun _ => 9/10)).1.map linkTuple ≠
      (discoverCausality emptyCR obsAB "dom" (fun _ => 1/10)).1.map linkTuple) := by
  refine ⟨by decide, by decide, by decide⟩

/-! ### Claim C8 -/

/-- C8 counterexample: `addEvidence` *can* decrease strength.  On a
stored link with strength 1.5 (reachable through `createLink`, which
does not clamp), appending one reliable evidence record drops the
strength to 1. -/
theorem addEvidence_strength_decrease_cex :
    (mapGet wideS.links "causal:0").map CausalLink.strength = some (3/2) ∧
    (mapGet (addEvidence wideS "causal:0"
        { id := "e1", reliability := 4/5 }).links "causal:0").map
      CausalLink.strength = some 1 ∧ ((1 : ℚ) < 3/2) := by
  refine ⟨by decide, by decide, by norm_num⟩

/-- C8 amended: `addEvidence` appends the record and sets the strength
to `min 1 (old + 0.1 * r / max 5 n)` with `n` the post-append evidence
count and `r` its reliable (reliability > 0.7) count; the strength
never decreases provided the old strength was at most 1 (as for every
in-range link) — a link whose strength already exceeds 1 is clipped
down to 1 by the `min`. -/
theorem addEvidence_strength_update (s : CausalReasoning)
    (linkId : EntityId) (ev : Evidence) (l : CausalLink)
    (h : mapGet s.links linkId = some l) :
    ∃ l', mapGet (addEvidence s linkId ev).links linkId = some l' ∧
      l'.evidence = l.evidence ++ [ev] ∧
      l'.strength = min 1 (l.strength +
        (((l.evidence ++ [ev]).filter (fun e => e.reliability > 7/10)).length : ℚ) /
          max 5 (((l.evidence ++ [ev]).length : ℕ) : ℚ) * (1/10)) ∧
      (l.strength ≤ 1 → l.strength ≤ l'.strength) := by
  simp only [addEvidence, h]
  refine ⟨_, mapGet_mapSet_self .., rfl, rfl, ?_⟩
  intro h1
  refine le_min h1 ?_
  have hden : (0 : ℚ) < max 5 (((l.evidence ++ [ev]).length : ℕ) : ℚ) :=
    lt_of_lt_of_le (by norm_num) (le_max_left _ _)
  have hnum : (0 : ℚ) ≤
      (((l.evidence ++ [ev]).filter (fun e => e.reliability > 7/10)).length : ℚ) :=
    Nat.cast_nonneg _
  have hfrac := div_nonneg hnum (le_of_lt hden)
  nlinarith [hfrac]

/-- Witness for the C8 amended theorem: the chain store's first link
and one reliable evidence record. -/
theorem addEvidence_strength_update_witness :
    ∃ l', mapGet (addEvidence chainS "causal:0"
        ({ id := "e1", reliability := 4/5 } : Evidence)).links "causal:0" = some l' ∧
      l'.evidence = linkAB.evidence ++ [({ id := "e1", reliability := 4/5 } : Evidence)] ∧
      l'.strength = min 1 (linkAB.strength +
        (((linkAB.evidence ++ [({ id := "e1", reliability := 4/5 } : Evidence)]).filter
            (fun e => e.reliability > 7/10)).length : ℚ) /
          max 5 (((linkAB.evidence ++
            [({ id := "e1", reliability := 4/5 } : Evidence)]).length : ℕ) : ℚ) * (1/10)) ∧
      (linkAB.strength ≤ 1 → linkAB.strength ≤ l'.strength) :=
  addEvidence_strength_update chainS "causal:0"
    ({ id := "e1", reliability := 4/5 } : Evidence) linkAB (by decide)

/-! ### Claim C9 -/

theorem addEvidence_of_none (s : CausalReasoning) (linkId : EntityId) (ev : Evidence)
    (h : mapGet s.links linkId = none) : addEvidence s linkId ev = s := by
  simp [addEvidence, h]

/-- C9: `updateModel` first appends the evidence via `addEvidence`;
then, with prior `p` the post-append strength and likelihood
`L = reliability`: if the evidence supports this link it sets the
strength to `L*p / (L*p + (1-L)*(1-p))`, if it (only) contradicts it
the likelihood roles are swapped, and evidence unrelated to the link's
hypothesis id performs no update beyond the append.  (The positivity
hypotheses mirror the `denominator > 0` guard of `bayesianUpdate`,
under which the claim's formulas denote.) -/
theorem updateModel_bayes (s : CausalReasoning) (linkId : EntityId) (ev : Evidence)
    (l : CausalLink)
    (h : mapGet (addEvidence s linkId ev).links linkId = some l) :
    (ev.supportsHypothesis = some linkId →
      ev.reliability * l.strength + (1 - ev.reliability) * (1 - l.strength) > 0 →
      mapGet (updateModel s linkId ev).links linkId =
        some { l with strength :=
          ev.reliability * l.strength /
            (ev.reliability * l.strength + (1 - ev.reliability) * (1 - l.strength)) }) ∧
    (ev.supportsHypothesis ≠ some linkId → ev.contradictsHypothesis = some linkId →
      (1 - ev.reliability) * l.strength + ev.reliability * (1 - l.strength) > 0 →
      mapGet (updateModel s linkId ev).links linkId =
        some { l with strength :=
          (1 - ev.reliability) * l.strength /
            ((1 - ev.reliability) * l.strength + ev.reliability * (1 - l.strength)) }) ∧
    (ev.supportsHypothesis ≠ some linkId → ev.contradictsHypothesis ≠ some linkId →
      updateModel s linkId ev = addEvidence s linkId ev) := by
  obtain ⟨l0, h0⟩ : ∃ l0, mapGet s.links linkId = some l0 := by
    cases h0 : mapGet s.links linkId with
    | none => rw [addEvidence_of_none s linkId ev h0, h0] at h; exact absurd h (by simp)
    | some l0 => exact ⟨l0, rfl⟩
  refine ⟨?_, ?_, ?_⟩
  · intro hs hpos
    simp only [updateModel, h0, h, hs, if_true]
    rw [mapGet_mapSet_self]
    simp only [bayesianUpdate]
    rw [if_pos hpos]
  · intro hns hc hpos
    simp only [updateModel, h0, h, if_neg hns, hc, if_true]
    rw [mapGet_mapSet_self]
    simp only [bayesianUpdate]
    rw [if_pos hpos]
  · intro hns hnc
    simp only [updateModel, h0, h, if_neg hns, if_neg hnc]

/-- Witness for C9: the three scenarios (supporting, contradicting,
unrelated evidence) at the chain's first link. -/
theorem updateModel_bayes_witness :
    (mapGet (updateModel chainS "causal:0" evSup).links "causal:0" =
      some { linkABevS with strength :=
        evSup.reliability * linkABevS.strength /
          (evSup.reliability * linkABevS.strength +
            (1 - evSup.reliability) * (1 - linkABevS.strength)) }) ∧
    (mapGet (updateModel chainS "causal:0" evCon).links "causal:0" =
      some { linkABevC with strength :=
        (1 - evCon.reliability) * linkABevC.strength /
          ((1 - evCon.reliability) * linkABevC.strength +
            evCon.reliability * (1 - linkABevC.strength)) }) ∧
    (updateModel chainS "causal:0" evNeu = addEvidence chainS "causal:0" evNeu) :=
  ⟨(updateModel_bayes chainS "causal:0" evSup linkABevS (by decide)).1
      (by decide) (by decide),
   (updateModel_bayes chainS "causal:0" evCon linkABevC (by decide)).2.1
      (by decide) (by decide) (by decide),
   (updateModel_bayes chainS "causal:0" evNeu linkABevN (by decide)).2.2
      (by decide) (by decide)⟩

/-! ### Traversal lemmas and claims C4, C5 -/

theorem exploreEffect_stop (s : CausalReasoning) (maxSteps fuel : ℕ)
    (c : EntityId) (path : List CausalLink) (conf : ℚ) (depth : ℕ)
    (st : PredState) (h : depth ≥ maxSteps ∨ c ∈ st.visited) :
    exploreEffect s maxSteps fuel c path conf depth st = st := by
  cases fuel <;> (unfold exploreEffect; rw [if_pos h])

theorem exploreEffect_zero (s : CausalReasoning) (maxSteps : ℕ)
    (c : EntityId) (path : List CausalLink) (conf : ℚ) (depth : ℕ)
    (st : PredState) :
    exploreEffect s maxSteps 0 c path conf depth st = st := by
  unfold exploreEffect; split <;> rfl

theorem exploreEffect_succ (s : CausalReasoning) (maxSteps f : ℕ)
    (c : EntityId) (path : List CausalLink) (conf : ℚ) (depth : ℕ)
    (st : PredState) (h : ¬(depth ≥ maxSteps ∨ c ∈ st.visited)) :
    exploreEffect s maxSteps (f + 1) c path conf depth st =
      List.foldl
        (fun st link =>
          exploreEffect s maxSteps f link.effect (path ++ [link])
            (conf * link.strength) (depth + 1)
            { st with results := st.results ++
              [{ predictionId := link.effect, confidence := conf * link.strength,
                 causalPath := path ++ [link],
                 explanation := generateExplanation (path ++ [link]) }] })
        { st with visited := st.visited ++ [c] } (getEffects s c) := by
  conv_lhs => unfold exploreEffect
  rw [if_neg h]

theorem exploreEffect_results (s : CausalReasoning) (maxSteps : ℕ) :
    ∀ (fuel : ℕ) (c : EntityId) (path : List CausalLink) (conf : ℚ) (depth : ℕ)
      (st : PredState) (r : CausalInferenceResult),
      path.length = depth →
      conf = (path.map CausalLink.strength).prod →
      (∀ r' ∈ st.results, r'.confidence = (r'.causalPath.map CausalLink.strength).prod ∧
        r'.causalPath.length ≤ maxSteps) →
      r ∈ (exploreEffect s maxSteps fuel c path conf depth st).results →
      r.confidence = (r.causalPath.map CausalLink.strength).prod ∧
      r.causalPath.length ≤ maxSteps := by
  intro fuel
  induction fuel with
  | zero =>
    intro c path conf depth st r _ _ hst hr
    rw [exploreEffect_zero] at hr
    exact hst r hr
  | succ f ih =>
    intro c path conf depth st r hlen hconf hst hr
    by_cases hguard : depth ≥ maxSteps ∨ c ∈ st.visited
    · rw [exploreEffect_stop _ _ _ _ _ _ _ _ hguard] at hr
      exact hst r hr
    · rw [exploreEffect_succ _ _ _ _ _ _ _ _ hguard] at hr
      have hdepth : depth < maxSteps := by
        rcases not_or.mp hguard with ⟨h1, _⟩
        omega
      have main : ∀ (links : List CausalLink) (st0 : PredState),
          (∀ r' ∈ st0.results,
            r'.confidence = (r'.causalPath.map CausalLink.strength).prod ∧
            r'.causalPath.length ≤ maxSteps) →
          ∀ r' ∈ (List.foldl
            (fun st link =>
              exploreEffect s maxSteps f link.effect (path ++ [link])
                (conf * link.strength) (depth + 1)
                { st with results := st.results ++
                  [{ predictionId := link.effect, confidence := conf * link.strength,
                     causalPath := path ++ [link],
                     explanation := generateExplanation (path ++ [link]) }] })
            st0 links).results,
            r'.confidence = (r'.causalPath.map CausalLink.strength).prod ∧
            r'.causalPath.length ≤ maxSteps := by
        intro links
        induction links with
        | nil => intro st0 hst0 r' hr'; exact hst0 r' hr'
        | cons link rest ihl =>
          intro st0 hst0 r' hr'
          rw [List.foldl_cons] at hr'
          refine ihl _ ?_ r' hr'
          intro r'' hr''
          refine ih link.effect (path ++ [link]) (conf * link.strength)
            (depth + 1) _ r'' ?_ ?_ ?_ hr''
          · simp [hlen]
          · simp [hconf]
          · intro r3 hr3
            rcases List.mem_append.mp hr3 with h3 | h3
            · exact hst0 r3 h3
            · have h4 := List.mem_singleton.mp h3
              subst h4
              refine ⟨by simp [hconf], ?_⟩
              simp only [List.length_append, List.length_singleton, hlen]
              omega
      exact main (getEffects s c) { st with visited := st.visited ++ [c] }
        (fun r' hr' => hst r' hr') r hr

theorem sortByConfidenceInsert_perm (r : CausalInferenceResult)
    (l : List CausalInferenceResult) :
    (sortByConfidenceInsert r l).Perm (r :: l) := by
  induction l with
  | nil => exact List.Perm.refl _
  | cons y ys ih =>
    unfold sortByConfidenceInsert
    split
    · exact List.Perm.refl _
    · exact (List.Perm.cons y ih).trans (List.Perm.swap r y ys)

theorem sortByConfidence_perm (l : List CausalInferenceResult) :
    (sortByConfidence l).Perm l := by
  induction l with
  | nil => exact List.Perm.refl _
  | cons r rs ih =>
    unfold sortByConfidence
    exact (sortByConfidenceInsert_perm r _).trans (List.Perm.cons r ih)

theorem predictEffect_results (s : CausalReasoning) (c : EntityId) (n : ℕ)
    (r : CausalInferenceResult) (hr : r ∈ predictEffect s c n) :
    r.confidence = (r.causalPath.map CausalLink.strength).prod ∧
    r.causalPath.length ≤ n := by
  have hr' : r ∈ (exploreEffect s n n c [] 1 0 {}).results :=
    (sortByConfidence_perm _).mem_iff.mp hr
  refine exploreEffect_results s n n c [] 1 0 {} r rfl (by simp) ?_ hr'
  intro r' hr'
  exact absurd hr' (List.not_mem_nil r')

/-- C4: `predictEffect` accumulates confidence as the product of the
link strengths along the path from the origin and never explores more
than `maxSteps` edges deep (every result's causal path has at most
`maxSteps` edges); on the chain A→B→C→D with strengths 0.9, 0.8, 0.7,
`predictEffect(A, 3)` includes the result targeting D with confidence
0.9×0.8×0.7 = 0.504 exactly, and every result it returns stays within
3 edges of A (targets B, C or D only). -/
theorem predictEffect_product_chain :
    (∀ (s : CausalReasoning) (c : EntityId) (n : ℕ) (r : CausalInferenceResult),
      r ∈ predictEffect s c n →
      r.confidence = (r.causalPath.map CausalLink.strength).prod ∧
      r.causalPath.length ≤ n) ∧
    (resD ∈ predictEffect chainS "A" 3) ∧
    (resD.confidence = (9/10 : ℚ) * (8/10) * (7/10)) ∧
    (∀ r ∈ predictEffect chainS "A" 3,
      r.causalPath.length ≤ 3 ∧
      (r.predictionId = "B" ∨ r.predictionId = "C" ∨ r.predictionId = "D")) := by
  refine ⟨predictEffect_results, by decide, by decide, by decide⟩

/-- Witness for C4's universally quantified part, at the chain store
and its deepest result. -/
theorem predictEffect_product_chain_witness :
    resD.confidence = (resD.causalPath.map CausalLink.strength).prod ∧
    resD.causalPath.length ≤ 3 :=
  predictEffect_product_chain.1 chainS "A" 3 resD (by decide)

theorem exploreCause_stop (s : CausalReasoning) (maxSteps fuel : ℕ)
    (c : EntityId) (path : List CausalLink) (conf : ℚ) (depth : ℕ)
    (st : PredState) (h : depth ≥ maxSteps ∨ c ∈ st.visited) :
    exploreCause s maxSteps fuel c path conf depth st = st := by
  cases fuel <;> (unfold exploreCause; rw [if_pos h])

theorem exploreCause_zero (s : CausalReasoning) (maxSteps : ℕ)
    (c : EntityId) (path : List CausalLink) (conf : ℚ) (depth : ℕ)
    (st : PredState) :
    exploreCause s maxSteps 0 c path conf depth st = st := by
  unfold exploreCause; split <;> rfl

theorem exploreCause_succ (s : CausalReasoning) (maxSteps f : ℕ)
    (c : EntityId) (path : List CausalLink) (conf : ℚ) (depth : ℕ)
    (st : PredState) (h : ¬(depth ≥ maxSteps ∨ c ∈ st.visited)) :
    exploreCause s maxSteps (f + 1) c path conf depth st =
      List.foldl
        (fun st link =>
          exploreCause s maxSteps f link.cause (link :: path)
            (conf * link.necessity) (depth + 1)
            { st with results := st.results ++
              [{ predictionId := link.cause, confidence := conf * link.necessity,
                 causalPath := link :: path,
                 explanation := generateExplanation (link :: path) }] })
        { st with visited := st.visited ++ [c] } (getCauses s c) := by
  conv_lhs => unfold exploreCause
  rw [if_neg h]

theorem exploreCause_results (s : CausalReasoning) (maxSteps : ℕ) :
    ∀ (fuel : ℕ) (c : EntityId) (path : List CausalLink) (conf : ℚ) (depth : ℕ)
      (st : PredState) (r : CausalInferenceResult),
      path.length = depth →
      conf = (path.map CausalLink.necessity).prod →
      (∀ r' ∈ st.results, r'.confidence = (r'.causalPath.map CausalLink.necessity).prod ∧
        r'.causalPath.length ≤ maxSteps) →
      r ∈ (exploreCause s maxSteps fuel c path conf depth st).results →
      r.confidence = (r.causalPath.map CausalLink.necessity).prod ∧
      r.causalPath.length ≤ maxSteps := by
  intro fuel
  induction fuel with
  | zero =>
    intro c path conf depth st r _ _ hst hr
    rw [exploreCause_zero] at hr
    exact hst r hr
  | succ f ih =>
    intro c path conf depth st r hlen hconf hst hr
    by_cases hguard : depth ≥ maxSteps ∨ c ∈ st.visited
    · rw [exploreCause_stop _ _ _ _ _ _ _ _ hguard] at hr
      exact hst r hr
    · rw [exploreCause_succ _ _ _ _ _ _ _ _ hguard] at hr
      have hdepth : depth < maxSteps := by
        rcases not_or.mp hguard with ⟨h1, _⟩
        omega
      have main : ∀ (links : List CausalLink) (st0 : PredState),
          (∀ r' ∈ st0.results,
            r'.confidence = (r'.causalPath.map CausalLink.necessity).prod ∧
            r'.causalPath.length ≤ maxSteps) →
          ∀ r' ∈ (List.foldl
            (fun st link =>
              exploreCause s maxSteps f link.cause (link :: path)
                (conf * link.necessity) (depth + 1)
                { st with results := st.results ++
                  [{ predictionId := link.cause, confidence := conf * link.necessity,
                     causalPath := link :: path,
                     explanation := generateExplanation (link :: path) }] })
            st0 links).results,
            r'.confidence = (r'.causalPath.map CausalLink.necessity).prod ∧
            r'.causalPath.length ≤ maxSteps := by
        intro links
        induction links with
        | nil => intro st0 hst0 r' hr'; exact hst0 r' hr'
        | cons link rest ihl =>
          intro st0 hst0 r' hr'
          rw [List.foldl_cons] at hr'
          refine ihl _ ?_ r' hr'
          intro r'' hr''
          refine ih link.cause (link :: path) (conf * link.necessity)
            (depth + 1) _ r'' ?_ ?_ ?_ hr''
          · simp [hlen]
          · simp [hconf, mul_comm]
          · intro r3 hr3
            rcases List.mem_append.mp hr3 with h3 | h3
            · exact hst0 r3 h3
            · have h4 := List.mem_singleton.mp h3
              subst h4
              refine ⟨by simp [hconf, mul_comm], ?_⟩
              simp only [List.length_cons, hlen]
              omega
      exact main (getCauses s c) { st with visited := st.visited ++ [c] }
        (fun r' hr' => hst r' hr') r hr

theorem explainEffect_results (s : CausalReasoning) (c : EntityId) (n : ℕ)
    (r : CausalInferenceResult) (hr : r ∈ explainEffect s c n) :
    r.confidence = (r.causalPath.map CausalLink.necessity).prod ∧
    r.causalPath.length ≤ n := by
  have hr' : r ∈ (exploreCause s n n c [] 1 0 {}).results :=
    (sortByConfidence_perm _).mem_iff.mp hr
  refine exploreCause_results s n n c [] 1 0 {} r rfl (by simp) ?_ hr'
  intro r' hr'
  exact absurd hr' (List.not_mem_nil r')

/-- C5: `explainEffect` follows incoming links backward and accumulates
confidence as the product of the `necessity` values (not `strength`) of
the links on the path; on the chain A→B→C→D with necessities 0.6, 0.5,
0.4, `explainEffect(D, 3)` includes the result targeting A whose
confidence is 0.6×0.5×0.4 = 3/25, the product of the three necessity
values (and distinct from the strength product 0.504). -/
theorem explainEffect_necessity_chain :
    (∀ (s : CausalReasoning) (c : EntityId) (n : ℕ) (r : CausalInferenceResult),
      r ∈ explainEffect s c n →
      r.confidence = (r.causalPath.map CausalLink.necessity).prod ∧
      r.causalPath.length ≤ n) ∧
    (resA ∈ explainEffect chainS "D" 3) ∧
    (resA.confidence = (6/10 : ℚ) * (5/10) * (4/10)) ∧
    (resA.confidence ≠ (resA.causalPath.map CausalLink.strength).prod) := by
  refine ⟨explainEffect_results, by decide, by decide, by decide⟩

/-- Witness for C5's universally quantified part, at the chain store
and its deepest backward result. -/
theorem explainEffect_necessity_chain_witness :
    resA.confidence = (resA.causalPath.map CausalLink.necessity).prod ∧
    resA.causalPath.length ≤ 3 :=
  explainEffect_necessity_chain.1 chainS "D" 3 resA (by decide)

/-! ### Claim C7 -/

theorem removalPhase_keys_congr {α β : Type} :
    ∀ (iv1 : List (EntityId × α)) (iv2 : List (EntityId × β))
      (acc : List (EntityId × List CausalLink)) (s : CausalReasoning),
      iv1.map Prod.fst = iv2.map Prod.fst →
      removalPhase acc s iv1 = removalPhase acc s iv2 := by
  intro iv1
  induction iv1 with
  | nil =>
    intro iv2 acc s h
    cases iv2 with
    | nil => rfl
    | cons q rest2 => simp at h
  | cons p rest ih =>
    intro iv2 acc s h
    cases iv2 with
    | nil => simp at h
    | cons q rest2 =>
      obtain ⟨v, a⟩ := p
      obtain ⟨w, b⟩ := q
      simp at h
      obtain ⟨h1, h2⟩ := h
      cases h1
      unfold removalPhase
      exact ih rest2 _ _ h2

theorem firstPrediction_keys_congr {α β : Type} :
    ∀ (iv1 : List (EntityId × α)) (iv2 : List (EntityId × β))
      (s : CausalReasoning) (t : EntityId),
      iv1.map Prod.fst = iv2.map Prod.fst →
      firstPrediction s t iv1 = firstPrediction s t iv2 := by
  intro iv1
  induction iv1 with
  | nil =>
    intro iv2 s t h
    cases iv2 with
    | nil => rfl
    | cons q rest2 => simp at h
  | cons p rest ih =>
    intro iv2 s t h
    cases iv2 with
    | nil => simp at h
    | cons q rest2 =>
      obtain ⟨v, a⟩ := p
      obtain ⟨w, b⟩ := q
      simp at h
      obtain ⟨h1, h2⟩ := h
      cases h1
      unfold firstPrediction
      rw [ih rest2 s t h2]

theorem predictIntervention_def {α : Type} (s : CausalReasoning)
    (iv : List (EntityId × α)) (t : EntityId) :
    predictIntervention s iv t =
      (firstPrediction (removalPhase [] s iv).2 t iv,
       restorePhase (removalPhase [] s iv).2 (removalPhase [] s iv).1) := by
  unfold predictIntervention
  rcases removalPhase [] s iv with ⟨rm, s1⟩
  rfl

/-- C7: `predictIntervention` never reads the forced values of the
intervention map — only its keys.  Two intervention maps with the same
keys in the same iteration order but arbitrary (even differently typed)
forced values produce the same result and the same final state, always
exploring forward from each intervened node's outgoing edges. -/
theorem predictIntervention_ignores_values {α β : Type}
    (s : CausalReasoning) (t : EntityId)
    (iv1 : List (EntityId × α)) (iv2 : List (EntityId × β))
    (h : iv1.map Prod.fst = iv2.map Prod.fst) :
    predictIntervention s iv1 t = predictIntervention s iv2 t := by
  rw [predictIntervention_def, predictIntervention_def,
    removalPhase_keys_congr iv1 iv2 [] s h,
    firstPrediction_keys_congr iv1 iv2 _ t h]

/-- Witness for C7: forcing B to true and forcing B to false yield the
same intervention prediction on the chain store. -/
theorem predictIntervention_ignores_values_witness :
    predictIntervention chainS [("B", true)] "D" =
      predictIntervention chainS [("B", false)] "D" :=
  predictIntervention_ignores_values chainS "D" [("B", true)] [("B", false)] rfl

/-! ### Claim C10 -/

theorem removalPhase_reads_only_effect_index {α : Type} :
    ∀ (iv : List (EntityId × α)) (acc : List (EntityId × List CausalLink))
      (s : CausalReasoning),
      (removalPhase acc s iv).2.links = s.links ∧
      (removalPhase acc s iv).2.linksByCause = s.linksByCause ∧
      (removalPhase acc s iv).2.graphs = s.graphs ∧
      (removalPhase acc s iv).2.nextId = s.nextId := by
  intro iv
  induction iv with
  | nil => intro acc s; exact ⟨rfl, rfl, rfl, rfl⟩
  | cons p rest ih =>
    intro acc s
    obtain ⟨v, a⟩ := p
    unfold removalPhase
    exact ih _ _

theorem foldl_fn_congr {α β : Type} (f g : α → β → α)
    (h : ∀ a b, f a b = g a b) :
    ∀ (l : List β) (a : α), l.foldl f a = l.foldl g a := by
  intro l
  induction l with
  | nil => intro a; rfl
  | cons b rest ih => intro a; rw [List.foldl_cons, List.foldl_cons, h, ih]

theorem getEffects_congr (s1 s2 : CausalReasoning)
    (hl : s1.links = s2.links) (hc : s1.linksByCause = s2.linksByCause) :
    getEffects s1 = getEffects s2 := by
  funext c
  unfold getEffects
  rw [hl, hc]

theorem exploreEffect_state_congr (s1 s2 : CausalReasoning)
    (hl : s1.links = s2.links) (hc : s1.linksByCause = s2.linksByCause)
    (ms : ℕ) :
    ∀ (fuel : ℕ) (c : EntityId) (path : List CausalLink) (conf : ℚ)
      (depth : ℕ) (st : PredState),
      exploreEffect s1 ms fuel c path conf depth st =
      exploreEffect s2 ms fuel c path conf depth st := by
  intro fuel
  induction fuel with
  | zero => intro c path conf depth st; rw [exploreEffect_zero, exploreEffect_zero]
  | succ f ih =>
    intro c path conf depth st
    by_cases hguard : depth ≥ ms ∨ c ∈ st.visited
    · rw [exploreEffect_stop _ _ _ _ _ _ _ _ hguard,
        exploreEffect_stop _ _ _ _ _ _ _ _ hguard]
    · rw [exploreEffect_succ _ _ _ _ _ _ _ _ hguard,
        exploreEffect_succ _ _ _ _ _ _ _ _ hguard,
        getEffects_congr s1 s2 hl hc]
      exact foldl_fn_congr _ _
        (fun (st0 : PredState) (link : CausalLink) =>
          ih link.effect (path ++ [link]) (conf * link.strength) (depth + 1) _) _ _

theorem predictEffect_state_congr (s1 s2 : CausalReasoning)
    (hl : s1.links = s2.links) (hc : s1.linksByCause = s2.linksByCause)
    (c : EntityId) (n : ℕ) :
    predictEffect s1 c n = predictEffect s2 c n := by
  unfold predictEffect
  rw [exploreEffect_state_congr s1 s2 hl hc]

theorem firstPrediction_state_congr {α : Type} (s1 s2 : CausalReasoning)
    (hl : s1.links = s2.links) (hc : s1.linksByCause = s2.linksByCause)
    (t : EntityId) :
    ∀ iv : List (EntityId × α),
      firstPrediction s1 t iv = firstPrediction s2 t iv := by
  intro iv
  induction iv with
  | nil => rfl
  | cons p rest ih =>
    obtain ⟨v, a⟩ := p
    unfold firstPrediction
    rw [predictEffect_state_congr s1 s2 hl hc, ih]

theorem firstPrediction_eq_scan {α : Type} (s : CausalReasoning) (t : EntityId) :
    ∀ iv : List (EntityId × α),
      firstPrediction s t iv = predictInterventionUnmodified s iv t := by
  intro iv
  induction iv with
  | nil => rfl
  | cons p rest ih =>
    obtain ⟨v, a⟩ := p
    unfold firstPrediction predictInterventionUnmodified
    rw [List.findSome?_cons]
    cases (predictEffect s v).find? (fun r => r.predictionId = t) with
    | none => simpa [predictInterventionUnmodified] using ih
    | some r => rfl

/-- C10: the edge severing inside `predictIntervention` cannot influence
its own answer: the removal phase touches only the effect-index (the
link store and the cause-index are returned unchanged), while
`predictEffect` reads only the link store and the cause-index, so the
returned result equals the first match of scanning the intervention
keys in iteration order with plain `predictEffect` on the unmodified
store. -/
theorem predictIntervention_result_unmodified {α : Type}
    (s : CausalReasoning) (iv : List (EntityId × α)) (t : EntityId) :
    ((removalPhase [] s iv).2.links = s.links ∧
     (removalPhase [] s iv).2.linksByCause = s.linksByCause) ∧
    (predictIntervention s iv t).1 = predictInterventionUnmodified s iv t := by
  obtain ⟨hl, hc, -, -⟩ := removalPhase_reads_only_effect_index iv [] s
  refine ⟨⟨hl, hc⟩, ?_⟩
  rw [predictIntervention_def]
  dsimp only
  rw [firstPrediction_state_congr _ s hl hc t iv]
  exact firstPrediction_eq_scan s t iv

/-! ### Claim C1 -/

theorem eraseFold_get (C : List CausalLink) :
    ∀ (m : List (EntityId × List EntityId)) (E : EntityId),
      mapGet (C.foldl (fun m l => mapModify m l.effect (fun b => b.erase l.id)) m) E =
      (mapGet m E).map (fun b =>
        (C.filter (fun l => l.effect = E)).foldl (fun b l => b.erase l.id) b) := by
  induction C with
  | nil =>
    intro m E
    simp [Option.map_id']
  | cons l rest ih =>
    intro m E
    rw [List.foldl_cons, ih]
    by_cases h : l.effect = E
    · subst h
      rw [mapModify_get_self]
      simp [List.filter_cons, Option.map_map]
      rfl
    · rw [mapModify_get_ne _ _ _ _ (Ne.symm h)]
      simp [List.filter_cons, h]

theorem addFold_get (C : List CausalLink) :
    ∀ (m : List (EntityId × List EntityId)) (E : EntityId),
      mapGet (C.foldl (fun m l => mapModify m l.effect (fun b => setAdd b l.id)) m) E =
      (mapGet m E).map (fun b =>
        (C.filter (fun l => l.effect = E)).foldl (fun b l => setAdd b l.id) b) := by
  induction C with
  | nil =>
    intro m E
    simp [Option.map_id']
  | cons l rest ih =>
    intro m E
    rw [List.foldl_cons, ih]
    by_cases h : l.effect = E
    · subst h
      rw [mapModify_get_self]
      simp [List.filter_cons, Option.map_map]
      rfl
    · rw [mapModify_get_ne _ _ _ _ (Ne.symm h)]
      simp [List.filter_cons, h]

theorem accLinks_append (xs ys : List (EntityId × List CausalLink)) :
    accLinks (xs ++ ys) = accLinks xs ++ accLinks ys := by
  induction xs with
  | nil => rfl
  | cons p rest ih =>
    obtain ⟨k, C⟩ := p
    simp [accLinks, ih]

theorem mem_accLinks {l : CausalLink} :
    ∀ {acc : List (EntityId × List CausalLink)},
      l ∈ accLinks acc → ∃ p ∈ acc, l ∈ p.2 := by
  intro acc
  induction acc with
  | nil => intro h; simp [accLinks] at h
  | cons p rest ih =>
    obtain ⟨k, C⟩ := p
    intro h
    rcases List.mem_append.mp h with h | h
    · exact ⟨(k, C), List.mem_cons_self _ _, h⟩
    · obtain ⟨q, hq, hl⟩ := ih h
      exact ⟨q, List.mem_cons_of_mem _ hq, hl⟩

theorem restorePhase_fields :
    ∀ (acc : List (EntityId × List CausalLink)) (s : CausalReasoning),
      (restorePhase s acc).links = s.links ∧
      (restorePhase s acc).linksByCause = s.linksByCause := by
  intro acc
  induction acc with
  | nil => intro s; exact ⟨rfl, rfl⟩
  | cons p rest ih =>
    intro s
    obtain ⟨k, C⟩ := p
    unfold restorePhase
    exact ih _

theorem restorePhase_get :
    ∀ (acc : List (EntityId × List CausalLink)) (s : CausalReasoning) (E : EntityId),
      mapGet (restorePhase s acc).linksByEffect E =
      (mapGet s.linksByEffect E).map (fun b =>
        ((accLinks acc).filter (fun l => l.effect = E)).foldl
          (fun b l => setAdd b l.id) b) := by
  intro acc
  induction acc with
  | nil =>
    intro s E
    simp [restorePhase, accLinks, Option.map_id']
  | cons p rest ih =>
    intro s E
    obtain ⟨k, C⟩ := p
    unfold restorePhase
    rw [ih]
    simp only [addFold_get, accLinks, List.filter_append, List.foldl_append,
      Option.map_map]
    rfl

theorem addFoldIds_congr_perm :
    ∀ (ids : List EntityId) {x1 x2 : List EntityId}, x1.Perm x2 →
      (ids.foldl (fun b i => setAdd b i) x1).Perm
        (ids.foldl (fun b i => setAdd b i) x2) := by
  intro ids
  induction ids with
  | nil => intro x1 x2 h; exact h
  | cons i rest ih =>
    intro x1 x2 h
    rw [List.foldl_cons, List.foldl_cons]
    apply ih
    unfold setAdd
    by_cases h1 : i ∈ x1
    · rw [if_pos h1, if_pos (h.mem_iff.mp h1)]
      exact h
    · rw [if_neg h1, if_neg (fun hc => h1 (h.mem_iff.mpr hc))]
      exact h.append_right _

theorem addFoldIds_fresh_append (i : EntityId) :
    ∀ (ids : List EntityId) (x : List EntityId), i ∉ ids →
      (ids.foldl (fun b j => setAdd b j) (x ++ [i])).Perm
        ((ids.foldl (fun b j => setAdd b j) x) ++ [i]) := by
  intro ids
  induction ids with
  | nil => intro x _; exact List.Perm.refl _
  | cons j rest ih =>
    intro x h
    have hij : j ≠ i := by rintro rfl; exact h (List.mem_cons_self _ _)
    have hrest : i ∉ rest := fun hr => h (List.mem_cons_of_mem _ hr)
    rw [List.foldl_cons, List.foldl_cons]
    by_cases hj : j ∈ x
    · rw [show setAdd (x ++ [i]) j = x ++ [i] from if_pos (by simp [hj]),
        show setAdd x j = x from if_pos hj]
      exact ih _ hrest
    · have hnotin : j ∉ x ++ [i] := by simp [hj, hij]
      rw [show setAdd (x ++ [i]) j = (x ++ [i]) ++ [j] from if_neg hnotin,
        show setAdd x j = x ++ [j] from if_neg hj]
      have hperm : ((x ++ [i]) ++ [j]).Perm ((x ++ [j]) ++ [i]) := by
        rw [List.append_assoc, List.append_assoc]
        exact List.Perm.append_left x (List.Perm.swap j i [])
      exact (addFoldIds_congr_perm rest hperm).trans (ih (x ++ [j]) hrest)

theorem eraseFoldIds_subset :
    ∀ (ids : List EntityId) (b : List EntityId),
      (ids.foldl (fun x i => x.erase i) b) ⊆ b := by
  intro ids
  induction ids with
  | nil => intro b; exact List.Subset.refl b
  | cons i rest ih =>
    intro b
    rw [List.foldl_cons]
    exact (ih _).trans (List.erase_subset _ _)

theorem erase_then_add_perm :
    ∀ (ids b : List EntityId), b.Nodup → ids.Nodup → (∀ i ∈ ids, i ∈ b) →
      (ids.foldl (fun x i => setAdd x i)
        (ids.foldl (fun x i => x.erase i) b)).Perm b := by
  intro ids
  induction ids with
  | nil => intro b _ _ _; exact List.Perm.refl b
  | cons i rest ih =>
    intro b hb hids hsub
    rw [List.foldl_cons, List.foldl_cons]
    have hi_b : i ∈ b := hsub i (List.mem_cons_self _ _)
    have hnd := List.nodup_cons.mp hids
    have hrest_sub : ∀ j ∈ rest, j ∈ b.erase i := by
      intro j hj
      have hneq : j ≠ i := by rintro rfl; exact hnd.1 hj
      exact (List.mem_erase_of_ne hneq).mpr (hsub j (List.mem_cons_of_mem _ hj))
    have hi_not_c :
        i ∉ (rest.foldl (fun x j => x.erase j) (b.erase i)) := by
      intro hc
      exact (hb.mem_erase_iff.mp (eraseFoldIds_subset rest _ hc)).1 rfl
    rw [show setAdd (rest.foldl (fun x j => x.erase j) (b.erase i)) i =
        (rest.foldl (fun x j => x.erase j) (b.erase i)) ++ [i] from if_neg hi_not_c]
    have h1 := addFoldIds_fresh_append i rest
      (rest.foldl (fun x j => x.erase j) (b.erase i)) hnd.1
    have h2 := (ih (b.erase i) (hb.erase i) hnd.2 hrest_sub).append_right [i]
    refine (h1.trans h2).trans ?_
    exact (List.perm_append_singleton i (b.erase i)).trans
      (List.perm_cons_erase hi_b).symm

theorem getCauses_effect_eq (s : CausalReasoning) (v : EntityId)
    (hwf : WellFormed s) : ∀ l ∈ getCauses s v, l.effect = v ∧ l.id ∈ bucketOf s v := by
  intro l hl
  unfold getCauses at hl
  obtain ⟨id, hid, hmap⟩ := List.mem_filterMap.mp hl
  have hlid : l.id = id := hwf.1 (id, l) (mapGet_mem hmap)
  cases hb : mapGet s.linksByEffect v with
  | none => rw [show bucketOf s v = [] from by simp [bucketOf, hb]] at *
            · exact absurd (by rwa [show (mapGet s.linksByEffect v).getD [] = [] from by simp [hb]] at hid) (List.not_mem_nil id)
  | some b =>
    have hbucket : bucketOf s v = b := by simp [bucketOf, hb]
    have hidb : id ∈ b := by
      rwa [show (mapGet s.linksByEffect v).getD [] = b from by simp [hb]] at hid
    have hq := hwf.2 (v, b) (mapGet_mem hb)
    refine ⟨hq.2 id hidb l (by simp [hmap]), ?_⟩
    rw [hbucket, hlid]
    exact hidb

theorem filterMap_map_id (f : EntityId → Option CausalLink)
    (hf : ∀ id l, f id = some l → l.id = id) :
    ∀ (b : List EntityId),
      (b.filterMap f).map (fun l => l.id) = b.filter (fun id => (f id).isSome) := by
  intro b
  induction b with
  | nil => rfl
  | cons id rest ih =>
    cases hid : f id with
    | none => simp [List.filterMap_cons, List.filter_cons, hid, ih]
    | some l => simp [List.filterMap_cons, List.filter_cons, hid, ih, hf id l hid]

theorem getCauses_ids (s : CausalReasoning) (v : EntityId)
    (hwf : WellFormed s) :
    (getCauses s v).map (fun l => l.id) =
      (bucketOf s v).filter (fun id => (mapGet s.links id).isSome) := by
  unfold getCauses bucketOf
  exact filterMap_map_id _ (fun id l h => hwf.1 (id, l) (mapGet_mem h)) _

theorem bucket_nodup (s : CausalReasoning) (v : EntityId) (hwf : WellFormed s) :
    (bucketOf s v).Nodup := by
  cases hb : mapGet s.linksByEffect v with
  | none => simp [bucketOf, hb]
  | some b =>
    have := (hwf.2 (v, b) (mapGet_mem hb)).1
    simpa [bucketOf, hb] using this

theorem mapSet_append_of_not_mem {α β : Type} [DecidableEq α] :
    ∀ (m : List (α × β)) (k : α) (v : β), k ∉ m.map Prod.fst →
      mapSet m k v = m ++ [(k, v)] := by
  intro m
  induction m with
  | nil => intro k v _; rfl
  | cons p rest ih =>
    intro k v h
    obtain ⟨k0, v0⟩ := p
    have hne : k0 ≠ k := by
      rintro rfl
      exact h (by simp)
    simp only [mapSet, if_neg hne, List.cons_append]
    rw [ih k v (fun hm => h (by simp [hm]))]

theorem wellFormed_mapModify_erase (s : CausalReasoning) (e id : EntityId)
    (hwf : WellFormed s) :
    WellFormed { s with linksByEffect :=
      (mapModify s.linksByEffect e (fun b => b.erase id)) } := by
  refine ⟨hwf.1, ?_⟩
  intro q hq
  rcases mem_mapModify hq with hq' | ⟨b, hb, hk, hf⟩
  · exact hwf.2 q hq'
  · obtain ⟨q1, q2⟩ := q
    dsimp at hb hk hf
    subst hf
    have hwq := hwf.2 (q1, b) hb
    refine ⟨hwq.1.erase id, ?_⟩
    intro id' hid' l hl
    exact hwq.2 id' (List.erase_subset _ _ hid') l hl

theorem wellFormed_eraseFold (C : List CausalLink) :
    ∀ (s : CausalReasoning), WellFormed s →
      WellFormed { s with linksByEffect :=
        (C.foldl (fun m l => mapModify m l.effect (fun b => b.erase l.id))
          s.linksByEffect) } := by
  induction C with
  | nil => intro s h; exact h
  | cons l rest ih =>
    intro s hwf
    rw [List.foldl_cons]
    exact ih { s with linksByEffect :=
      (mapModify s.linksByEffect l.effect (fun b => b.erase l.id)) }
      (wellFormed_mapModify_erase s l.effect l.id hwf)

theorem accLinks_effect_ne (acc : List (EntityId × List CausalLink))
    (v : EntityId) (hgood : AccGood acc) (hv : v ∉ acc.map Prod.fst) :
    ∀ l ∈ accLinks acc, l.effect ≠ v := by
  intro l hl
  obtain ⟨p, hp, hlp⟩ := mem_accLinks hl
  rw [hgood p hp l hlp]
  intro h
  exact hv (h ▸ List.mem_map_of_mem Prod.fst hp)

theorem restore_step_perm (s : CausalReasoning) (v : EntityId)
    (acc : List (EntityId × List CausalLink))
    (hwf : WellFormed s) (hgood : AccGood acc) (hv_acc : v ∉ acc.map Prod.fst) :
    ∀ E, (bucketOf (restorePhase
        { s with linksByEffect :=
          ((getCauses s v).foldl
            (fun m l => mapModify m l.effect (fun b => b.erase l.id))
            s.linksByEffect) }
        (acc ++ [(v, getCauses s v)])) E).Perm
      (bucketOf (restorePhase s acc) E) := by
  intro E
  have hCv : ∀ l ∈ getCauses s v, l.effect = v :=
    fun l hl => (getCauses_effect_eq s v hwf l hl).1
  have haccC : accLinks (acc ++ [(v, getCauses s v)]) =
      accLinks acc ++ getCauses s v := by
    rw [accLinks_append]
    simp [accLinks]
  have hL := restorePhase_get (acc ++ [(v, getCauses s v)])
    { s with linksByEffect :=
      ((getCauses s v).foldl
        (fun m l => mapModify m l.effect (fun b => b.erase l.id))
        s.linksByEffect) } E
  have hR := restorePhase_get acc s E
  rw [haccC] at hL
  have hinner : mapGet ({ s with linksByEffect :=
      ((getCauses s v).foldl
        (fun m l => mapModify m l.effect (fun b => b.erase l.id))
        s.linksByEffect) } : CausalReasoning).linksByEffect E =
      (mapGet s.linksByEffect E).map (fun b =>
        ((getCauses s v).filter (fun l => l.effect = E)).foldl
          (fun b l => b.erase l.id) b) :=
    eraseFold_get (getCauses s v) s.linksByEffect E
  rw [hinner, Option.map_map] at hL
  by_cases hE : E = v
  · subst hE
    have hAccE : (accLinks acc).filter (fun l => l.effect = E) = [] := by
      rw [List.filter_eq_nil_iff]
      intro l hl
      simpa using accLinks_effect_ne acc E hgood hv_acc l hl
    have hCE : (getCauses s E).filter (fun l => l.effect = E) = getCauses s E := by
      rw [List.filter_eq_self]
      intro l hl
      simp [hCv l hl]
    rw [List.filter_append, hAccE, hCE, List.nil_append] at hL
    rw [hAccE] at hR
    unfold bucketOf
    rw [hL, hR]
    cases hb : mapGet s.linksByEffect E with
    | none => exact List.Perm.refl _
    | some b =>
      show ((getCauses s E).foldl (fun y l => setAdd y l.id)
        ((getCauses s E).foldl (fun x l => x.erase l.id) b)).Perm b
      have hbnd : b.Nodup := by
        have := (hwf.2 (E, b) (mapGet_mem hb)).1
        exact this
      have hids : (getCauses s E).map (fun l => l.id) =
          b.filter (fun id => (mapGet s.links id).isSome) := by
        have := getCauses_ids s E hwf
        rwa [show bucketOf s E = b from by simp [bucketOf, hb]] at this
      have h1 : ((getCauses s E).foldl (fun x l => x.erase l.id) b) =
          (((getCauses s E).map (fun l => l.id)).foldl (fun x i => x.erase i) b) := by
        rw [List.foldl_map]
      have h2 : ∀ x, ((getCauses s E).foldl (fun y l => setAdd y l.id) x) =
          (((getCauses s E).map (fun l => l.id)).foldl (fun y i => setAdd y i) x) := by
        intro x
        rw [List.foldl_map]
      rw [h1, h2, hids]
      exact erase_then_add_perm (b.filter (fun id => (mapGet s.links id).isSome)) b
        hbnd (hbnd.filter _) (fun i hi => List.mem_of_mem_filter hi)
  · have hCE : (getCauses s v).filter (fun l => l.effect = E) = [] := by
      rw [List.filter_eq_nil_iff]
      intro l hl
      simp [hCv l hl]
      exact fun h => hE h.symm
    rw [List.filter_append, hCE, List.append_nil] at hL
    unfold bucketOf
    rw [hL, hR]
    exact List.Perm.refl _

theorem removal_restore_buckets {α : Type} :
    ∀ (iv : List (EntityId × α)) (s : CausalReasoning)
      (acc : List (EntityId × List CausalLink)),
      WellFormed s → AccGood acc →
      (acc.map Prod.fst ++ iv.map Prod.fst).Nodup →
      ∀ E, (bucketOf (restorePhase (removalPhase acc s iv).2
          (removalPhase acc s iv).1) E).Perm
        (bucketOf (restorePhase s acc) E) := by
  intro iv
  induction iv with
  | nil =>
    intro s acc _ _ _ E
    exact List.Perm.refl _
  | cons p rest ih =>
    intro s acc hwf hgood hnd E
    obtain ⟨v, a⟩ := p
    have hv_acc : v ∉ acc.map Prod.fst := by
      have hsplit := List.nodup_append.mp (by simpa using hnd)
      intro hv
      exact hsplit.2.2 hv (List.mem_cons_self _ _)
    have hCv : ∀ l ∈ getCauses s v, l.effect = v :=
      fun l hl => (getCauses_effect_eq s v hwf l hl).1
    have hmapset : mapSet acc v (getCauses s v) = acc ++ [(v, getCauses s v)] :=
      mapSet_append_of_not_mem acc v _ hv_acc
    have hstep : removalPhase acc s ((v, a) :: rest) =
        removalPhase (acc ++ [(v, getCauses s v)])
          { s with linksByEffect :=
            ((getCauses s v).foldl
              (fun m l => mapModify m l.effect (fun b => b.erase l.id))
              s.linksByEffect) } rest := by
      conv_lhs => unfold removalPhase
      dsimp only
      rw [hmapset]
    rw [hstep]
    have hwf' := wellFormed_eraseFold (getCauses s v) s hwf
    have hgood' : AccGood (acc ++ [(v, getCauses s v)]) := by
      intro q hq
      rcases List.mem_append.mp hq with hq | hq
      · exact hgood q hq
      · rw [List.mem_singleton.mp hq]
        exact hCv
    have hnd' : ((acc ++ [(v, getCauses s v)]).map Prod.fst ++
        rest.map Prod.fst).Nodup := by
      rw [List.map_append, List.append_assoc]
      simpa using hnd
    have hIH := ih { s with linksByEffect :=
      ((getCauses s v).foldl
        (fun m l => mapModify m l.effect (fun b => b.erase l.id))
        s.linksByEffect) } (acc ++ [(v, getCauses s v)]) hwf' hgood' hnd' E
    exact hIH.trans (restore_step_perm s v acc hwf hgood hv_acc E)

/-- C1: `predictIntervention` restores the effect-index on every exit
path: on a well-formed store (every link knows its own key; effect
buckets duplicate-free and keyed by their links' `effect`) and for an
intervention map (whose keys, coming from a JavaScript `Map`, are
distinct), after the call returns, `getCauses` of every intervened node
is a permutation of its pre-call value — identical in cardinality and
membership.  The embedded code is total, so every exit path is a normal
return; no exceptional exit exists to escape the restoration. -/
theorem predictIntervention_restores_getCauses {α : Type}
    (s : CausalReasoning) (iv : List (EntityId × α)) (t v : EntityId)
    (hwf : WellFormed s) (hnd : (iv.map Prod.fst).Nodup)
    (_hv : v ∈ iv.map Prod.fst) :
    (getCauses (predictIntervention s iv t).2 v).Perm (getCauses s v) ∧
    (getCauses (predictIntervention s iv t).2 v).length =
      (getCauses s v).length ∧
    (getCauses (predictIntervention s iv t).2 v).toFinset =
      (getCauses s v).toFinset := by
  have hperm : (getCauses (predictIntervention s iv t).2 v).Perm (getCauses s v) := by
    rw [predictIntervention_def]
    dsimp only
    have hbucket := removal_restore_buckets iv s [] hwf
      (fun p hp => absurd hp (List.not_mem_nil p))
      (by simpa using hnd) v
    have hlinks : (restorePhase (removalPhase [] s iv).2
        (removalPhase [] s iv).1).links = s.links := by
      rw [(restorePhase_fields _ _).1,
        (removalPhase_reads_only_effect_index iv [] s).1]
    unfold getCauses
    rw [hlinks]
    exact (show (bucketOf (restorePhase (removalPhase [] s iv).2
      (removalPhase [] s iv).1) v).Perm (bucketOf s v) from hbucket).filterMap _
  exact ⟨hperm, hperm.length_eq, List.toFinset_eq_of_perm _ _ hperm⟩

/-- Witness for C1: intervening on B and D over the chain store. -/
theorem predictIntervention_restores_getCauses_witness :
    (getCauses (predictIntervention chainS [("B", true), ("D", false)] "C").2 "B").Perm
      (getCauses chainS "B") ∧
    (getCauses (predictIntervention chainS [("B", true), ("D", false)] "C").2 "B").length =
      (getCauses chainS "B").length ∧
    (getCauses (predictIntervention chainS [("B", true), ("D", false)] "C").2 "B").toFinset =
      (getCauses chainS "B").toFinset :=
  predictIntervention_restores_getCauses chainS [("B", true), ("D", false)] "C" "B"
    (by unfold WellFormed; decide) (by decide) (by decide)
